import Mathlib

/-!
Verification of the lenstest specification against a shallow embedding of the
repository's core geometric-optics computations.

The repository snapshot contains the documentation (README, Makefiles,
docs/sagitta.ipynb) but not the Python modules lenstest/lenstest.py,
lenstest/ronchi.py and lenstest/foucault.py themselves.  Following the rules
for code missing from the snapshot, the definitions below that embed those
modules are modelled from the specification (spec.md), faithful to its words;
each such definition says so in its doc comment.  The eccentricity-to-conic
conversion is taken from the code in docs/sagitta.ipynb, which is present.

Floating-point arithmetic is modelled by real numbers.
-/

namespace Lenstest

/-- Modelled from the spec: the error taxonomy of section 7.  The spec names a
single DomainError with two distinct triggering messages for
lenstest.lenstest.sagitta (negative term under the square root, and a zero
denominator); we keep the two triggers apart as constructors. -/
inductive DomainError
  | apertureExceeded
  | zeroDenominator
  deriving DecidableEq

/-- Modelled from the spec: the conic discriminant, the term under the square
root in the sagitta formula of section 4.1, at the aperture point (x, y). -/
noncomputable def disc (R K x y : ℝ) : ℝ :=
  R ^ 2 - (1 + K) * (x ^ 2 + y ^ 2)

/-- Modelled from the spec: sagitta of the conic surface as a function of the
squared radial distance rho from the vertex (section 4.1 formula). -/
noncomputable def sagr (R K rho : ℝ) : ℝ :=
  rho / (R + Real.sqrt (R ^ 2 - (1 + K) * rho))

/-- Modelled from the spec: the closed-form sagitta value at aperture point
(x, y), the value lenstest.lenstest.sagitta returns when it does not raise. -/
noncomputable def sagittaVal (R K x y : ℝ) : ℝ :=
  sagr R K (x ^ 2 + y ^ 2)

/-- Modelled from the spec: lenstest.lenstest.sagitta, absent from the
snapshot.  Section 4.1: returns r^2 / (R + sqrt(R^2 - (1+K) r^2)) with
r^2 = x^2 + y^2; raises DomainError when the term under the square root is
negative, and raises DomainError when the denominator evaluates to zero. -/
noncomputable def sagitta (R K x y : ℝ) : Except DomainError ℝ :=
  if disc R K x y < 0 then Except.error DomainError.apertureExceeded
  else if R + Real.sqrt (disc R K x y) = 0 then Except.error DomainError.zeroDenominator
  else Except.ok (sagittaVal R K x y)

/-- Conversion of an eccentricity to a conic constant, from the code in
docs/sagitta.ipynb: conic_constant = (-eccentricity**2).real. -/
noncomputable def conic_constant (e : ℂ) : ℝ :=
  (-e ^ 2).re

/-!
Ray-trace layer, modelled from spec sections 4.2 and 4.3: a point source at
the center of curvature (0, R) illuminates the conic surface; each ray is
reflected with the exact law of reflection about the analytic surface normal
(the gradient of the implicit conic equation u^2 - 2 R zc + (1+K) zc^2 = 0,
namely (u, (1+K) zc - R) at the surface point (u, zc)), and is intersected
with the observation plane at axial position R + z_offset (paraxial focus of
the returning beam plus the configured offset).  By axial symmetry the trace
is done in the meridional plane as a function of the squared radial
coordinate rho.
-/

/-- Modelled from the spec: axial component of the (un-normalized) surface
normal at squared radius rho; the transverse component is the radial
coordinate itself. -/
noncomputable def normZ (R K rho : ℝ) : ℝ :=
  (1 + K) * sagr R K rho - R

/-- Modelled from the spec: axial component of the incident ray direction
from the source at the center of curvature (0, R) to the surface point; the
transverse component is the radial coordinate itself. -/
noncomputable def dirZ (R K rho : ℝ) : ℝ :=
  sagr R K rho - R

/-- Modelled from the spec: dot product of the incident direction with the
surface normal (transverse parts contribute rho). -/
noncomputable def dotDN (R K rho : ℝ) : ℝ :=
  rho + dirZ R K rho * normZ R K rho

/-- Modelled from the spec: squared norm of the surface normal. -/
noncomputable def normSq (R K rho : ℝ) : ℝ :=
  rho + normZ R K rho ^ 2

/-- Modelled from the spec: the reflected direction d' = d - 2 (d.n / n.n) n;
its transverse component is the radial coordinate times this coefficient. -/
noncomputable def reflUCoeff (R K rho : ℝ) : ℝ :=
  1 - 2 * (dotDN R K rho / normSq R K rho)

/-- Modelled from the spec: axial component of the reflected direction. -/
noncomputable def reflZ (R K rho : ℝ) : ℝ :=
  dirZ R K rho - 2 * (dotDN R K rho / normSq R K rho) * normZ R K rho

/-- Modelled from the spec: the factor by which a surface point's transverse
coordinates are scaled when its reflected ray is intersected with the
observation plane at axial position R + z (meaningful when the axial
component of the reflected direction is nonzero). -/
noncomputable def planeFactor (R K z rho : ℝ) : ℝ :=
  1 + (R + z - sagr R K rho) * reflUCoeff R K rho / reflZ R K rho

/-- Modelled from the spec: transverse position at the observation plane of
the ray reflected from surface radius r (meridional trace). -/
noncomputable def traceU (R K z r : ℝ) : ℝ :=
  r * planeFactor R K z (r ^ 2)

/-- Modelled from the spec: the ray trace to the observation plane; a
reflected ray whose axial direction component vanishes never reaches the
plane, a degenerate geometry that yields no point rather than an error. -/
noncomputable def traceToPlane (R K z r : ℝ) : Option ℝ :=
  if reflZ R K (r ^ 2) = 0 then none else some (traceU R K z r)

/-- Modelled from the spec: transverse x coordinate at the observation plane
of the ray from aperture point (X, Y); by axial symmetry it is the aperture
coordinate scaled by the plane factor of its squared radius. -/
noncomputable def foucaultLandingX (R K z X Y : ℝ) : ℝ :=
  X * planeFactor R K z (X ^ 2 + Y ^ 2)

/-- Modelled from the spec: transverse y coordinate at the observation plane
of the ray from aperture point (X, Y). -/
noncomputable def foucaultLandingY (R K z X Y : ℝ) : ℝ :=
  Y * planeFactor R K z (X ^ 2 + Y ^ 2)

/-- Modelled from the spec: the Foucault shadow-pattern boundary, the set of
aperture points whose reflected ray reaches the observation plane and lands
exactly on the knife edge (the line at signed distance x0 from the axis with
normal direction (cos phi, sin phi)); these points trace the edge between the
illuminated and shadowed zones. -/
def foucaultBoundary (D R K z x0 phi : ℝ) : Set (ℝ × ℝ) :=
  {P : ℝ × ℝ |
    P.1 ^ 2 + P.2 ^ 2 ≤ (D / 2) ^ 2 ∧
    reflZ R K (P.1 ^ 2 + P.2 ^ 2) ≠ 0 ∧
    foucaultLandingX R K z P.1 P.2 * Real.cos phi +
      foucaultLandingY R K z P.1 P.2 * Real.sin phi = x0}

/-- Modelled from the spec: the radial sampling of the aperture used by the
Ronchi simulator, nR equally spaced radii spanning (0, D/2]. -/
noncomputable def sampleRadii (D : ℝ) (nR : ℕ) : List ℝ :=
  (List.range nR).map (fun i : ℕ => D / 2 * (((i : ℕ) : ℝ) + 1) / ((nR : ℕ) : ℝ))

/-- Modelled from the spec: whether a ray landing at transverse position t
falls on a grating line of the ruling with lp line pairs per millimeter
(square ruling of pitch 1/lp, half-period bands). -/
noncomputable def onGratingLine (lp t : ℝ) : Prop :=
  ⌊2 * t * lp⌋ % 2 = 0

/-- The grating-line classification is decidable (an integer parity test). -/
noncomputable instance (lp t : ℝ) : Decidable (onGratingLine lp t) := by
  unfold onGratingLine; infer_instance

/-- Modelled from the spec: the sampled radii whose reflected ray reaches the
grating plane and lands on a grating line; rays that never reach the plane
are dropped (degenerate geometry, not an error). -/
noncomputable def brightRadii (D RoC lp z K : ℝ) (nR : ℕ) : List ℝ :=
  (sampleRadii D nR).filter (fun r =>
    match traceToPlane RoC K z r with
    | none => false
    | some t => decide (onGratingLine lp t))

/-- Modelled from the spec: azimuthal replication of a bright radius into nAz
points equally spaced around the optical axis. -/
noncomputable def azPoints (nAz : ℕ) (r : ℝ) : List (ℝ × ℝ) :=
  (List.range nAz).map (fun j : ℕ =>
    (r * Real.cos (2 * Real.pi * ((j : ℕ) : ℝ) / ((nAz : ℕ) : ℝ)),
     r * Real.sin (2 * Real.pi * ((j : ℕ) : ℝ) / ((nAz : ℕ) : ℝ))))

/-- Modelled from the spec: ronchi.gram, absent from the snapshot.  Produces
the Ronchigram point cloud: every sampled radius classified as bright is
replicated azimuthally with the configured number of azimuthal samples. -/
noncomputable def gram (D RoC lp z K : ℝ) (nR nAz : ℕ) : List (ℝ × ℝ) :=
  (brightRadii D RoC lp z K nR).flatMap (azPoints nAz)

/-- Helper: under the hypotheses of the happy path, sagitta returns ok. -/
theorem lm_sagitta_ok (R K x y : ℝ) (h1 : 0 ≤ disc R K x y)
    (h2 : R + Real.sqrt (disc R K x y) ≠ 0) :
    sagitta R K x y = Except.ok (sagittaVal R K x y) := by
  rw [sagitta, if_neg (not_lt.mpr h1), if_neg h2]

/-- C1: for every R, K, x, y with nonnegative discriminant and nonzero
denominator, sagitta returns exactly r^2 / (R + sqrt(R^2 - (1+K) r^2)) with
r^2 = x^2 + y^2. -/
theorem claim_C1 (R K x y : ℝ) (h1 : 0 ≤ R ^ 2 - (1 + K) * (x ^ 2 + y ^ 2))
    (h2 : R + Real.sqrt (R ^ 2 - (1 + K) * (x ^ 2 + y ^ 2)) ≠ 0) :
    sagitta R K x y =
      Except.ok ((x ^ 2 + y ^ 2) / (R + Real.sqrt (R ^ 2 - (1 + K) * (x ^ 2 + y ^ 2)))) := by
  exact lm_sagitta_ok R K x y h1 h2

/-- Witness for C1 at R = 5, K = 0, x = 0, y = 3. -/
theorem claim_C1_witness :
    (0 : ℝ) ≤ 5 ^ 2 - (1 + 0) * (0 ^ 2 + 3 ^ 2) ∧
    sagitta 5 0 0 3 =
      Except.ok (((0 : ℝ) ^ 2 + 3 ^ 2) /
        (5 + Real.sqrt (5 ^ 2 - (1 + 0) * (0 ^ 2 + 3 ^ 2)))) := by
  refine ⟨by norm_num, claim_C1 5 0 0 3 (by norm_num) ?_⟩
  have h := Real.sqrt_nonneg ((5 : ℝ) ^ 2 - (1 + 0) * (0 ^ 2 + 3 ^ 2))
  positivity

/-- C2: for K > -1, sagitta raises the aperture DomainError whenever the
radial distance sqrt(x^2 + y^2) exceeds the valid aperture radius
sqrt(R^2 / (1 + K)). -/
theorem claim_C2 (R K x y : ℝ) (hK : -1 < K)
    (hr : Real.sqrt (R ^ 2 / (1 + K)) < Real.sqrt (x ^ 2 + y ^ 2)) :
    sagitta R K x y = Except.error DomainError.apertureExceeded := by
  have h1K : 0 < 1 + K := by linarith
  have hc : 0 ≤ R ^ 2 / (1 + K) := by positivity
  have hlt : R ^ 2 / (1 + K) < x ^ 2 + y ^ 2 :=
    (Real.sqrt_lt_sqrt_iff hc).mp hr
  have hd : disc R K x y < 0 := by
    have := (div_lt_iff₀ h1K).mp hlt
    rw [disc]
    nlinarith
  rw [sagitta, if_pos hd]

/-- Witness for C2 at R = 1, K = 0, x = 0, y = 2. -/
theorem claim_C2_witness :
    (-1 : ℝ) < 0 ∧
    Real.sqrt ((1 : ℝ) ^ 2 / (1 + 0)) < Real.sqrt ((0 : ℝ) ^ 2 + 2 ^ 2) ∧
    sagitta 1 0 0 2 = Except.error DomainError.apertureExceeded := by
  have hs : Real.sqrt ((1 : ℝ) ^ 2 / (1 + 0)) < Real.sqrt ((0 : ℝ) ^ 2 + 2 ^ 2) := by
    apply Real.sqrt_lt_sqrt (by norm_num)
    norm_num
  exact ⟨by norm_num, hs, claim_C2 1 0 0 2 (by norm_num) hs⟩

/-- C10 counterexample: the claim asserts that for every R ≠ 0 and K ≤ -1
sagitta is defined for every real x, y.  At R = -1, K = -1, x = y = 0 the
discriminant is 1 ≥ 0 but the denominator R + sqrt(1) is zero, so sagitta
raises the zero-denominator DomainError instead of returning a value. -/
theorem claim_C10_counterexample :
    (-1 : ℝ) ≠ 0 ∧ (-1 : ℝ) ≤ -1 ∧
    sagitta (-1) (-1) 0 0 = Except.error DomainError.zeroDenominator := by
  refine ⟨by norm_num, le_refl _, ?_⟩
  have harg : disc (-1) (-1) 0 0 = 1 := by rw [disc]; norm_num
  rw [sagitta, harg]
  rw [if_neg (by norm_num), if_pos (by rw [Real.sqrt_one]; norm_num)]

/-- C10 amended: for every R ≠ 0 and K ≤ -1 the discriminant is at least
R^2 > 0, so the negative-discriminant DomainError branch is unreachable; when
moreover R > 0 the denominator is positive as well and sagitta returns the
closed-form value for every real x, y.  (For R < 0 the zero-denominator
DomainError can still fire, as the counterexample shows.) -/
theorem claim_C10 (R K x y : ℝ) (hR : R ≠ 0) (hK : K ≤ -1) :
    R ^ 2 ≤ disc R K x y ∧ 0 < disc R K x y ∧
      (0 < R → sagitta R K x y = Except.ok (sagittaVal R K x y)) := by
  have hnp : (1 + K) * (x ^ 2 + y ^ 2) ≤ 0 :=
    mul_nonpos_of_nonpos_of_nonneg (by linarith) (by positivity)
  have h1 : R ^ 2 ≤ disc R K x y := by rw [disc]; nlinarith
  have hRsq : 0 < R ^ 2 := by positivity
  refine ⟨h1, lt_of_lt_of_le hRsq h1, fun hRpos => ?_⟩
  apply lm_sagitta_ok
  · linarith
  · have := Real.sqrt_nonneg (disc R K x y)
    positivity

/-- Witness for C10 at R = 2, K = -1, x = 1, y = 1. -/
theorem claim_C10_witness :
    (2 : ℝ) ≠ 0 ∧ (-1 : ℝ) ≤ -1 ∧
    ((2 : ℝ) ^ 2 ≤ disc 2 (-1) 1 1 ∧ 0 < disc 2 (-1) 1 1 ∧
      ((0 : ℝ) < 2 → sagitta 2 (-1) 1 1 = Except.ok (sagittaVal 2 (-1) 1 1))) :=
  ⟨by norm_num, le_refl _, claim_C10 2 (-1) 1 1 (by norm_num) (le_refl _)⟩

/-- C4: sagitta matches the closed-form reference value whenever defined, and
at R = 7.8 mm, K = 0, r = 6.0 mm the sagitta is 2.816 mm within 1e-3 (the
Benjamin and Rosenblum reference value). -/
theorem claim_C4 :
    (∀ R K r : ℝ, 0 ≤ disc R K 0 r → R + Real.sqrt (disc R K 0 r) ≠ 0 →
        sagitta R K 0 r = Except.ok (sagittaVal R K 0 r)) ∧
    |sagittaVal 7.8 0 0 6 - 2.816| ≤ 1 / 1000 := by
  constructor
  · exact fun R K r h1 h2 => lm_sagitta_ok R K 0 r h1 h2
  · have harg : (7.8 : ℝ) ^ 2 - (1 + 0) * (0 ^ 2 + 6 ^ 2) = 24.84 := by norm_num
    rw [sagittaVal, sagr, harg]
    set q := Real.sqrt (24.84 : ℝ) with hq
    have hq2 : q ^ 2 = 24.84 := Real.sq_sqrt (by norm_num)
    have hq0 : 0 ≤ q := Real.sqrt_nonneg _
    have hql : 4.9839 < q := by nlinarith
    have hqu : q < 4.9841 := by nlinarith
    have hden : (0 : ℝ) < 7.8 + q := by linarith
    rw [abs_le]
    constructor
    · rw [le_sub_iff_add_le, le_div_iff₀ hden]
      nlinarith
    · rw [sub_le_iff_le_add, div_le_iff₀ hden]
      nlinarith

/-- Witness for C4 (its universally quantified conjunct) at R = 5, K = 0,
r = 3. -/
theorem claim_C4_witness :
    (0 : ℝ) ≤ disc 5 0 0 3 ∧ sagitta 5 0 0 3 = Except.ok (sagittaVal 5 0 0 3) := by
  have h1 : (0 : ℝ) ≤ disc 5 0 0 3 := by rw [disc]; norm_num
  have h2 : (5 : ℝ) + Real.sqrt (disc 5 0 0 3) ≠ 0 := by
    have := Real.sqrt_nonneg (disc 5 0 0 3)
    positivity
  exact ⟨h1, claim_C4.1 5 0 3 h1 h2⟩

/-- Helper: conic_constant of a real eccentricity x is -x^2. -/
theorem lm_cc_real (x : ℝ) : conic_constant ((x : ℂ)) = -x ^ 2 := by
  have h : (-((x : ℂ)) ^ 2) = ((-x ^ 2 : ℝ) : ℂ) := by push_cast; ring
  rw [conic_constant, h, Complex.ofReal_re]

/-- Helper: conic_constant of a purely imaginary eccentricity x*j is +x^2. -/
theorem lm_cc_imag (x : ℝ) : conic_constant ((x : ℂ) * Complex.I) = x ^ 2 := by
  have h : (-((x : ℂ) * Complex.I) ^ 2) = ((x ^ 2 : ℝ) : ℂ) := by
    rw [mul_pow, Complex.I_sq]; push_cast; ring
  rw [conic_constant, h, Complex.ofReal_re]

/-- C3 counterexample: with eccentricity 0.504j the conic constant is
+0.254016, and the sagitta at R = 7.8 mm, 2h = 9.0 mm is about 1.472 mm, not
1.398 mm within 0.01 as the claim states (1.398 mm is the value for the real
eccentricity 0.45, i.e. K = -0.2025; the notebook's own output table lists
1.472 in the 0.504j column and 1.398 in the 0.45 column). -/
theorem claim_C3_counterexample :
    ¬ |sagittaVal 7.8 (conic_constant (((0.504 : ℝ) : ℂ) * Complex.I)) 0 4.5 - 1.398| ≤
      0.01 := by
  rw [lm_cc_imag, show ((0.504 : ℝ)) ^ 2 = 0.254016 by norm_num, sagittaVal, sagr,
    show (7.8 : ℝ) ^ 2 - (1 + 0.254016) * (0 ^ 2 + 4.5 ^ 2) = 35.446176 by norm_num]
  set q := Real.sqrt (35.446176 : ℝ) with hqdef
  have hq2 : q ^ 2 = 35.446176 := Real.sq_sqrt (by norm_num)
  have hq0 : 0 ≤ q := Real.sqrt_nonneg _
  have hqu : q < 5.96 := by nlinarith
  have hden : (0 : ℝ) < 7.8 + q := by linarith
  rw [not_le]
  have hs : (1.408 : ℝ) < ((0 : ℝ) ^ 2 + 4.5 ^ 2) / (7.8 + q) := by
    rw [lt_div_iff₀ hden]; nlinarith
  calc (0.01 : ℝ) < ((0 : ℝ) ^ 2 + 4.5 ^ 2) / (7.8 + q) - 1.398 := by linarith
    _ ≤ |((0 : ℝ) ^ 2 + 4.5 ^ 2) / (7.8 + q) - 1.398| := le_abs_self _

/-- C3 amended: supplying the conic constant via an eccentricity e with
K = (-e^2).real loses nothing for real or purely imaginary e (real e gives
K = -e^2, imaginary e = x*j gives K = +x^2), hence yields the same sagitta
values as supplying K directly; numerically, for e = 0.504j (K = 0.254016),
R = 7.8 mm and chord 2h = 9.0 mm the sagitta is 1.472 mm within 0.01, while
1.398 mm within 0.01 is the value for the real eccentricity e = 0.45. -/
theorem claim_C3 :
    (∀ x : ℝ, conic_constant ((x : ℂ)) = -x ^ 2) ∧
    (∀ x : ℝ, conic_constant ((x : ℂ) * Complex.I) = x ^ 2) ∧
    |sagittaVal 7.8 (conic_constant (((0.504 : ℝ) : ℂ) * Complex.I)) 0 4.5 - 1.472| ≤
      0.01 ∧
    |sagittaVal 7.8 (conic_constant ((0.45 : ℝ) : ℂ)) 0 4.5 - 1.398| ≤ 0.01 := by
  refine ⟨lm_cc_real, lm_cc_imag, ?_, ?_⟩
  · rw [lm_cc_imag, show ((0.504 : ℝ)) ^ 2 = 0.254016 by norm_num, sagittaVal, sagr,
      show (7.8 : ℝ) ^ 2 - (1 + 0.254016) * (0 ^ 2 + 4.5 ^ 2) = 35.446176 by norm_num]
    set q := Real.sqrt (35.446176 : ℝ) with hqdef
    have hq2 : q ^ 2 = 35.446176 := Real.sq_sqrt (by norm_num)
    have hq0 : 0 ≤ q := Real.sqrt_nonneg _
    have hql : 5.95 < q := by nlinarith
    have hqu : q < 5.96 := by nlinarith
    have hden : (0 : ℝ) < 7.8 + q := by linarith
    rw [abs_le]
    constructor
    · rw [le_sub_iff_add_le, le_div_iff₀ hden]; nlinarith
    · rw [sub_le_iff_le_add, div_le_iff₀ hden]; nlinarith
  · rw [lm_cc_real, show -((0.45 : ℝ)) ^ 2 = -0.2025 by norm_num, sagittaVal, sagr,
      show (7.8 : ℝ) ^ 2 - (1 + -0.2025) * (0 ^ 2 + 4.5 ^ 2) = 44.690625 by norm_num]
    set q := Real.sqrt (44.690625 : ℝ) with hqdef
    have hq2 : q ^ 2 = 44.690625 := Real.sq_sqrt (by norm_num)
    have hq0 : 0 ≤ q := Real.sqrt_nonneg _
    have hql : 6.68 < q := by nlinarith
    have hqu : q < 6.69 := by nlinarith
    have hden : (0 : ℝ) < 7.8 + q := by linarith
    rw [abs_le]
    constructor
    · rw [le_sub_iff_add_le, le_div_iff₀ hden]; nlinarith
    · rw [sub_le_iff_le_add, div_le_iff₀ hden]; nlinarith

/-- C5: for fixed R and K ≥ -1, sagitta is strictly increasing in the radial
distance r across the valid aperture (nonnegative discriminant at the outer
radius, nonzero denominators at both radii). -/
theorem claim_C5 (R K r1 r2 : ℝ) (hK : -1 ≤ K) (h0 : 0 ≤ r1) (h12 : r1 < r2)
    (hdisc : 0 ≤ disc R K 0 r2)
    (hd1 : R + Real.sqrt (disc R K 0 r1) ≠ 0)
    (hd2 : R + Real.sqrt (disc R K 0 r2) ≠ 0) :
    sagittaVal R K 0 r1 < sagittaVal R K 0 r2 := by
  have hrr : r1 ^ 2 < r2 ^ 2 := by nlinarith
  have hrho : (0 : ℝ) ^ 2 + r1 ^ 2 < 0 ^ 2 + r2 ^ 2 := by nlinarith
  have hd1e : disc R K 0 r1 = R ^ 2 - (1 + K) * (0 ^ 2 + r1 ^ 2) := rfl
  have hd2e : disc R K 0 r2 = R ^ 2 - (1 + K) * (0 ^ 2 + r2 ^ 2) := rfl
  rcases eq_or_lt_of_le hK with hKe | hKl
  · -- K = -1: the sagitta is rho / (R + |R|), and the nonzero denominator
    -- forces R > 0, so it is rho / (2R), strictly increasing in rho.
    have hK1 : (1 : ℝ) + K = 0 := by linarith
    have hdisc1R : disc R K 0 r1 = R ^ 2 := by rw [disc, hK1]; ring
    have hsq : Real.sqrt (disc R K 0 r1) = |R| := by
      rw [hdisc1R, Real.sqrt_sq_eq_abs]
    have hRpos : 0 < R := by
      rcases le_or_lt R 0 with hRle | hRgt
      · exact absurd (by rw [hsq, abs_of_nonpos hRle]; ring) hd1
      · exact hRgt
    rw [sagittaVal, sagittaVal, sagr, sagr,
      show R ^ 2 - (1 + K) * ((0 : ℝ) ^ 2 + r1 ^ 2) = R ^ 2 by rw [hK1]; ring,
      show R ^ 2 - (1 + K) * ((0 : ℝ) ^ 2 + r2 ^ 2) = R ^ 2 by rw [hK1]; ring,
      Real.sqrt_sq_eq_abs, abs_of_pos hRpos]
    have hRR : (0 : ℝ) < R + R := by linarith
    exact div_lt_div_of_pos_right hrho hRR
  · -- K > -1: rationalize to (R - q)/(1+K) and use strict monotonicity of sqrt.
    have h1K : (0 : ℝ) < 1 + K := by linarith
    set q1 := Real.sqrt (disc R K 0 r1) with hq1def
    set q2 := Real.sqrt (disc R K 0 r2) with hq2def
    have hdlt : disc R K 0 r2 < disc R K 0 r1 := by
      rw [hd1e, hd2e]; nlinarith
    have hq1sq : q1 ^ 2 = disc R K 0 r1 :=
      Real.sq_sqrt (le_of_lt (lt_of_le_of_lt hdisc hdlt))
    have hq2sq : q2 ^ 2 = disc R K 0 r2 := Real.sq_sqrt hdisc
    have hq21 : q2 < q1 := Real.sqrt_lt_sqrt hdisc hdlt
    have hs1 : sagittaVal R K 0 r1 = (R - q1) / (1 + K) := by
      rw [sagittaVal, sagr, ← hd1e, ← hq1def, div_eq_div_iff hd1 (ne_of_gt h1K)]
      linear_combination hq1sq + hd1e
    have hs2 : sagittaVal R K 0 r2 = (R - q2) / (1 + K) := by
      rw [sagittaVal, sagr, ← hd2e, ← hq2def, div_eq_div_iff hd2 (ne_of_gt h1K)]
      linear_combination hq2sq + hd2e
    rw [hs1, hs2]
    exact div_lt_div_of_pos_right (by linarith) h1K

/-- Witness for C5 at R = 5, K = 0, r1 = 3, r2 = 4. -/
theorem claim_C5_witness :
    (0 : ℝ) ≤ disc 5 0 0 4 ∧ sagittaVal 5 0 0 3 < sagittaVal 5 0 0 4 := by
  have hdisc : (0 : ℝ) ≤ disc 5 0 0 4 := by rw [disc]; norm_num
  have hd1 : (5 : ℝ) + Real.sqrt (disc 5 0 0 3) ≠ 0 := by
    have := Real.sqrt_nonneg (disc 5 0 0 3); positivity
  have hd2 : (5 : ℝ) + Real.sqrt (disc 5 0 0 4) ≠ 0 := by
    have := Real.sqrt_nonneg (disc 5 0 0 4); positivity
  exact ⟨hdisc,
    claim_C5 5 0 3 4 (by norm_num) (by norm_num) (by norm_num) hdisc hd1 hd2⟩

/-- Helper: for a sphere (K = 0) with the source at the center of curvature,
the incident ray is radial, the reflected ray retraces it, and the exact
trace lands at -z*r/sqrt(R^2 - r^2) on the plane at axial offset z from the
paraxial focus. -/
theorem lm_sphere_trace (R z r : ℝ) (hdisc : 0 ≤ R ^ 2 - r ^ 2)
    (hq0 : Real.sqrt (R ^ 2 - r ^ 2) ≠ 0)
    (hd : R + Real.sqrt (R ^ 2 - r ^ 2) ≠ 0) :
    reflZ R 0 (r ^ 2) = Real.sqrt (R ^ 2 - r ^ 2) ∧
      traceU R 0 z r = -(z * r) / Real.sqrt (R ^ 2 - r ^ 2) := by
  set q := Real.sqrt (R ^ 2 - r ^ 2) with hqdef
  have hq2 : q ^ 2 = R ^ 2 - r ^ 2 := Real.sq_sqrt hdisc
  have hqpos : 0 < q := lt_of_le_of_ne (Real.sqrt_nonneg _) (Ne.symm hq0)
  have hR2 : r ^ 2 < R ^ 2 := by nlinarith
  have hRsq : (0 : ℝ) < R ^ 2 := lt_of_le_of_lt (sq_nonneg r) hR2
  have hs : sagr R 0 (r ^ 2) = R - q := by
    rw [sagr, show R ^ 2 - (1 + 0) * r ^ 2 = R ^ 2 - r ^ 2 by ring, ← hqdef,
      div_eq_iff hd]
    linear_combination hq2
  have hnz : normZ R 0 (r ^ 2) = -q := by rw [normZ, hs]; ring
  have hdz : dirZ R 0 (r ^ 2) = -q := by rw [dirZ, hs]; ring
  have hdn : dotDN R 0 (r ^ 2) = R ^ 2 := by
    rw [dotDN, hdz, hnz]; linear_combination hq2
  have hnn : normSq R 0 (r ^ 2) = R ^ 2 := by
    rw [normSq, hnz]; linear_combination hq2
  have hrz : reflZ R 0 (r ^ 2) = q := by
    rw [reflZ, hdz, hnz, hdn, hnn, div_self (ne_of_gt hRsq)]; ring
  refine ⟨hrz, ?_⟩
  rw [traceU, planeFactor, hrz, hs, reflUCoeff, hdn, hnn,
    div_self (ne_of_gt hRsq)]
  field_simp
  ring

/-- Helper: evaluation of the sphere trace at R = 5, z = 1 for a radius r
given with its companion q satisfying r^2 + q^2 = 25. -/
theorem lm_sphere_eval (r q : ℝ) (hqpos : 0 < q) (hpy : r ^ 2 + q ^ 2 = 25) :
    traceToPlane 5 0 1 r = some (-(r / q)) := by
  have hdisc : (0 : ℝ) ≤ 5 ^ 2 - r ^ 2 := by nlinarith
  have hsq : Real.sqrt ((5 : ℝ) ^ 2 - r ^ 2) = q := by
    rw [show (5 : ℝ) ^ 2 - r ^ 2 = q ^ 2 by linarith, Real.sqrt_sq hqpos.le]
  have hq0 : Real.sqrt ((5 : ℝ) ^ 2 - r ^ 2) ≠ 0 := by
    rw [hsq]; exact ne_of_gt hqpos
  have hd : (5 : ℝ) + Real.sqrt ((5 : ℝ) ^ 2 - r ^ 2) ≠ 0 := by
    rw [hsq]; positivity
  obtain ⟨hrz, htu⟩ := lm_sphere_trace 5 1 r hdisc hq0 hd
  rw [traceToPlane, if_neg (by rw [hrz, hsq]; exact ne_of_gt hqpos), htu, hsq]
  congr 1
  ring

/-- Helper: exact trace of the paraboloid (K = -1) with R = 5, z = 1 at
radius 1. -/
theorem lm_parab_eval_one : traceU 5 (-1) 1 1 = -(199 / 1276) := by
  have h5 : Real.sqrt ((5 : ℝ) ^ 2 - (1 + -1) * 1 ^ 2) = 5 := by
    rw [show (5 : ℝ) ^ 2 - (1 + -1) * 1 ^ 2 = 5 ^ 2 by norm_num,
      Real.sqrt_sq (by norm_num)]
  rw [traceU, planeFactor, reflZ, reflUCoeff, dotDN, normSq, dirZ, normZ, sagr,
    show ((1 : ℝ) ^ 2 : ℝ) = 1 ^ 2 from rfl, h5]
  norm_num

/-- Helper: exact trace of the paraboloid (K = -1) with R = 5, z = 1 at
radius 2. -/
theorem lm_parab_eval_two : traceU 5 (-1) 1 2 = -(34 / 683) := by
  have h5 : Real.sqrt ((5 : ℝ) ^ 2 - (1 + -1) * 2 ^ 2) = 5 := by
    rw [show (5 : ℝ) ^ 2 - (1 + -1) * 2 ^ 2 = 5 ^ 2 by norm_num,
      Real.sqrt_sq (by norm_num)]
  rw [traceU, planeFactor, reflZ, reflUCoeff, dotDN, normSq, dirZ, normZ, sagr, h5]
  norm_num

/-- C6 counterexample: for K = 0 (pure sphere), R = 5, z_offset = 1 and a
grating whose line edges sit at transverse positions -1, -2, -3, the three
consecutive zone-boundary radii are sqrt(25/2), sqrt(20), sqrt(45/2), whose
spacing is not equal: the exact (non-paraxial) trace of a sphere maps radius
r to -z*r/sqrt(R^2 - r^2), which is not linear in r, so zone boundaries are
not equally spaced in r even for K = 0. -/
theorem claim_C6_counterexample :
    0 < Real.sqrt (25 / 2) ∧ Real.sqrt (25 / 2) < Real.sqrt 20 ∧
    Real.sqrt 20 < Real.sqrt (45 / 2) ∧
    traceToPlane 5 0 1 (Real.sqrt (25 / 2)) = some (-1) ∧
    traceToPlane 5 0 1 (Real.sqrt 20) = some (-2) ∧
    traceToPlane 5 0 1 (Real.sqrt (45 / 2)) = some (-3) ∧
    Real.sqrt (45 / 2) - Real.sqrt 20 ≠ Real.sqrt 20 - Real.sqrt (25 / 2) := by
  have s1 : Real.sqrt ((25 : ℝ) / 2) ^ 2 = 25 / 2 := Real.sq_sqrt (by norm_num)
  have s2 : Real.sqrt (20 : ℝ) ^ 2 = 20 := Real.sq_sqrt (by norm_num)
  have s3 : Real.sqrt ((45 : ℝ) / 2) ^ 2 = 45 / 2 := Real.sq_sqrt (by norm_num)
  have q5 : Real.sqrt (5 : ℝ) ^ 2 = 5 := Real.sq_sqrt (by norm_num)
  have q52 : Real.sqrt ((5 : ℝ) / 2) ^ 2 = 5 / 2 := Real.sq_sqrt (by norm_num)
  have p1 : 0 < Real.sqrt ((25 : ℝ) / 2) := Real.sqrt_pos.mpr (by norm_num)
  have p2 : 0 < Real.sqrt (20 : ℝ) := Real.sqrt_pos.mpr (by norm_num)
  have p3 : 0 < Real.sqrt ((45 : ℝ) / 2) := Real.sqrt_pos.mpr (by norm_num)
  have p5 : 0 < Real.sqrt (5 : ℝ) := Real.sqrt_pos.mpr (by norm_num)
  have p52 : 0 < Real.sqrt ((5 : ℝ) / 2) := Real.sqrt_pos.mpr (by norm_num)
  have h20 : Real.sqrt (20 : ℝ) = 2 * Real.sqrt 5 := by
    rw [show (20 : ℝ) = 2 ^ 2 * 5 by norm_num, Real.sqrt_mul (by positivity),
      Real.sqrt_sq (by norm_num)]
  have h45 : Real.sqrt ((45 : ℝ) / 2) = 3 * Real.sqrt (5 / 2) := by
    rw [show (45 : ℝ) / 2 = 3 ^ 2 * (5 / 2) by norm_num, Real.sqrt_mul (by positivity),
      Real.sqrt_sq (by norm_num)]
  refine ⟨p1, Real.sqrt_lt_sqrt (by norm_num) (by norm_num),
    Real.sqrt_lt_sqrt (by norm_num) (by norm_num), ?_, ?_, ?_, ?_⟩
  · rw [lm_sphere_eval (Real.sqrt (25 / 2)) (Real.sqrt (25 / 2)) p1 (by rw [s1]; norm_num)]
    rw [div_self (ne_of_gt p1)]
  · rw [lm_sphere_eval (Real.sqrt 20) (Real.sqrt 5) p5 (by rw [s2, q5]; norm_num)]
    rw [h20, mul_div_assoc, div_self (ne_of_gt p5)]
    norm_num
  · rw [lm_sphere_eval (Real.sqrt (45 / 2)) (Real.sqrt (5 / 2)) p52 (by rw [s3, q52]; norm_num)]
    rw [h45, mul_div_assoc, div_self (ne_of_gt p52)]
    norm_num
  · -- sqrt(45/2) + sqrt(25/2) < 8.29 < 8.9 < 2 * sqrt(20)
    have b3u : Real.sqrt ((45 : ℝ) / 2) < 4.75 := by nlinarith
    have b1u : Real.sqrt ((25 : ℝ) / 2) < 3.54 := by nlinarith
    have b2l : (4.45 : ℝ) < Real.sqrt 20 := by nlinarith
    intro h
    nlinarith

/-- C6 amended: under the exact (non-paraxial) ray trace mandated by the
spec, the mapping from surface radius to grating-plane position is nonlinear
even for K = 0 — it is r maps-to -z*r/sqrt(R^2 - r^2) — so zone boundaries
are not equally spaced in r for K = 0 either (equal spacing holds only in
the paraxial limit r much smaller than R); for K ≠ 0 the mapping is likewise
not proportional to r, witnessed here for a paraboloid (K = -1) at R = 5,
z_offset = 1 over the aperture r ≤ 4. -/
theorem claim_C6 :
    (∀ R z r : ℝ, 0 ≤ R ^ 2 - r ^ 2 → Real.sqrt (R ^ 2 - r ^ 2) ≠ 0 →
        R + Real.sqrt (R ^ 2 - r ^ 2) ≠ 0 →
        traceToPlane R 0 z r = some (-(z * r) / Real.sqrt (R ^ 2 - r ^ 2))) ∧
    ¬ (∃ c : ℝ, ∀ r : ℝ, 0 ≤ r → r ≤ 4 → traceU 5 (-1) 1 r = c * r) := by
  constructor
  · intro R z r hdisc hq0 hd
    obtain ⟨hrz, htu⟩ := lm_sphere_trace R z r hdisc hq0 hd
    rw [traceToPlane, if_neg (by rw [hrz]; exact hq0), htu]
  · rintro ⟨c, hc⟩
    have e1 := hc 1 (by norm_num) (by norm_num)
    have e2 := hc 2 (by norm_num) (by norm_num)
    rw [lm_parab_eval_one] at e1
    rw [lm_parab_eval_two] at e2
    rw [mul_one] at e1
    linarith

/-- Witness for C6 (its universally quantified conjunct) at R = 5, z = 1,
r = 3. -/
theorem claim_C6_witness :
    (0 : ℝ) ≤ 5 ^ 2 - 3 ^ 2 ∧
    traceToPlane 5 0 1 3 = some (-(1 * 3) / Real.sqrt ((5 : ℝ) ^ 2 - 3 ^ 2)) := by
  have h4 : Real.sqrt ((5 : ℝ) ^ 2 - 3 ^ 2) = 4 := by
    rw [show (5 : ℝ) ^ 2 - 3 ^ 2 = 4 ^ 2 by norm_num, Real.sqrt_sq (by norm_num)]
  exact ⟨by norm_num,
    claim_C6.1 5 1 3 (by norm_num) (by rw [h4]; norm_num) (by rw [h4]; norm_num)⟩

/-- Helper: each azimuthal replication produces exactly nAz points. -/
theorem lm_azPoints_length (nAz : ℕ) (r : ℝ) : (azPoints nAz r).length = nAz := by
  rw [azPoints, List.length_map, List.length_range]

/-- Helper: azimuthal replication of a list of radii multiplies its length by
the azimuthal sample count. -/
theorem lm_flatMap_length (nAz : ℕ) (l : List ℝ) :
    (l.flatMap (azPoints nAz)).length = nAz * l.length := by
  induction l with
  | nil => simp
  | cons a t ih => simp [List.flatMap_cons, lm_azPoints_length, ih]; ring

/-- C7: the Ronchi simulator is deterministic (it is a pure function of its
arguments, so repeated calls with identical inputs give identical point
clouds), and the number of output points is exactly the azimuthal sample
count times the number of bright radii — linear in the azimuthal count. -/
theorem claim_C7 :
    (∀ (D RoC lp z K : ℝ) (nR nAz : ℕ),
        gram D RoC lp z K nR nAz = gram D RoC lp z K nR nAz) ∧
    (∀ (D RoC lp z K : ℝ) (nR nAz : ℕ),
        (gram D RoC lp z K nR nAz).length =
          nAz * (brightRadii D RoC lp z K nR).length) :=
  ⟨fun _ _ _ _ _ _ _ => rfl, fun _ _ _ _ _ _ nAz => lm_flatMap_length nAz _⟩

/-- C8: with knife lateral offset 0 and knife angle 0, the Foucault
shadow-boundary output is symmetric about the optical axis: the mirror image
through the axis of any emitted point is also emitted. -/
theorem claim_C8 (D R K z x0 phi X Y : ℝ) (hx0 : x0 = 0) (hphi : phi = 0)
    (h : (X, Y) ∈ foucaultBoundary D R K z x0 phi) :
    (-X, -Y) ∈ foucaultBoundary D R K z x0 phi := by
  subst hx0 hphi
  simp only [foucaultBoundary, Set.mem_setOf_eq, foucaultLandingX, foucaultLandingY,
    Real.cos_zero, Real.sin_zero, mul_one, mul_zero, add_zero, neg_sq] at h ⊢
  obtain ⟨h1, h2, h3⟩ := h
  refine ⟨h1, h2, ?_⟩
  rw [neg_mul, h3, neg_zero]

/-- Witness for C8: the aperture point (0, 3) on the sphere R = 5 with D = 8,
z_offset = 1 lies on the shadow boundary, and so does its mirror image. -/
theorem claim_C8_witness :
    ((0 : ℝ), (3 : ℝ)) ∈ foucaultBoundary 8 5 0 1 0 0 ∧
    (-(0 : ℝ), -(3 : ℝ)) ∈ foucaultBoundary 8 5 0 1 0 0 := by
  have h4 : Real.sqrt ((5 : ℝ) ^ 2 - 3 ^ 2) = 4 := by
    rw [show (5 : ℝ) ^ 2 - 3 ^ 2 = 4 ^ 2 by norm_num, Real.sqrt_sq (by norm_num)]
  have hrz : reflZ 5 0 ((0 : ℝ) ^ 2 + 3 ^ 2) ≠ 0 := by
    rw [show (0 : ℝ) ^ 2 + 3 ^ 2 = 3 ^ 2 by norm_num]
    rcases lm_sphere_trace 5 1 3 (by norm_num) (by rw [h4]; norm_num)
      (by rw [h4]; norm_num) with ⟨hrz, _⟩
    rw [hrz, h4]; norm_num
  have hmem : ((0 : ℝ), (3 : ℝ)) ∈ foucaultBoundary 8 5 0 1 0 0 := by
    refine ⟨by norm_num, hrz, ?_⟩
    simp [foucaultLandingX, foucaultLandingY]
  exact ⟨hmem, claim_C8 8 5 0 1 0 0 0 3 rfl rfl hmem⟩

/-- Helper: the degenerate equatorial ray of the full hemisphere D = 2R:
at R = 1, K = 0 the ray reflected from radius 1 travels parallel to the
observation plane and never reaches it. -/
theorem lm_degenerate_eval : traceToPlane 1 0 1 1 = none := by
  have h0 : Real.sqrt ((1 : ℝ) ^ 2 - (1 + 0) * 1 ^ 2) = 0 := by
    rw [show (1 : ℝ) ^ 2 - (1 + 0) * 1 ^ 2 = 0 by norm_num, Real.sqrt_zero]
  have hrz : reflZ 1 0 ((1 : ℝ) ^ 2) = 0 := by
    rw [reflZ, dirZ, normZ, dotDN, normSq, dirZ, normZ, sagr, h0]
    norm_num
  rw [traceToPlane, if_pos hrz]

/-- Helper: with R = 0 every reflected axial direction component vanishes, so
every ray is degenerate. -/
theorem lm_reflZ_R0 (rho : ℝ) (hrho : 0 ≤ rho) : reflZ 0 0 rho = 0 := by
  have hsqrt : Real.sqrt ((0 : ℝ) ^ 2 - (1 + 0) * rho) = 0 := by
    rw [show (0 : ℝ) ^ 2 - (1 + 0) * rho = -rho by ring]
    exact Real.sqrt_eq_zero'.mpr (by linarith)
  have hs : sagr 0 0 rho = 0 := by
    rw [sagr, hsqrt]
    simp
  rw [reflZ, dirZ, normZ, hs]
  ring

/-- C9: degenerate configurations in which no reflected ray reaches the
grating plane or the knife-edge plane yield an empty point cloud and an empty
shadow boundary; both operations are total functions, so no exception is
raised. -/
theorem claim_C9 (D RoC lp z K x0 phi : ℝ) (nR nAz : ℕ) :
    ((∀ r ∈ sampleRadii D nR, traceToPlane RoC K z r = none) →
      gram D RoC lp z K nR nAz = []) ∧
    ((∀ X Y : ℝ, X ^ 2 + Y ^ 2 ≤ (D / 2) ^ 2 → reflZ RoC K (X ^ 2 + Y ^ 2) = 0) →
      foucaultBoundary D RoC K z x0 phi = ∅) := by
  constructor
  · intro h
    have hb : brightRadii D RoC lp z K nR = [] := by
      rw [brightRadii, List.filter_eq_nil_iff]
      intro r hr
      rw [h r hr]
      simp
    rw [gram, hb]
    rfl
  · intro h
    rw [Set.eq_empty_iff_forall_not_mem]
    rintro ⟨X, Y⟩ ⟨h1, h2, h3⟩
    exact h2 (h X Y h1)

/-- Witness for C9: a hemisphere sampled only at its equator (all rays
degenerate) gives an empty Ronchigram, and a surface with R = 0 (all rays
degenerate) gives an empty Foucault boundary. -/
theorem claim_C9_witness :
    gram 2 1 1 1 0 1 3 = [] ∧ foucaultBoundary 2 0 0 1 0 0 = ∅ := by
  constructor
  · apply (claim_C9 2 1 1 1 0 0 0 1 3).1
    intro r hr
    have hsr : sampleRadii 2 1 = [(1 : ℝ)] := by
      norm_num [sampleRadii, List.range_succ]
    rw [hsr] at hr
    simp only [List.mem_singleton] at hr
    rw [hr]
    exact lm_degenerate_eval
  · apply (claim_C9 2 0 1 1 0 0 0 1 3).2
    intro X Y hXY
    exact lm_reflZ_R0 (X ^ 2 + Y ^ 2) (by positivity)

end Lenstest
